import Mathlib

/-!
Verification of the in-browser video upscaler's job lifecycle coordinator
(`src/app/page.tsx`). The page delegates all transcoding to an external
engine; the repository's own logic is the state management embedded below:
engine readiness, file intake with revocable object URLs, the
parameter-to-argument translator `buildScaleFilter`, and the `upscale`
job runner with its guards, error handling and output-handle lifecycle.

Modelling conventions:
- React `useState` fields become fields of `AppState`.
- `URL.createObjectURL` returns a fresh handle drawn from the counter
  `nextHandle`; `URL.revokeObjectURL` appends the handle to `revoked`.
- The revocation `useEffect` (page.tsx lines 63-68) has dependency list
  `[inputUrl, outputUrl]`; whenever that pair changes across a commit,
  React runs the previous cleanup, which revokes the previous render's
  `inputUrl` and `outputUrl`.  `flushIds` models exactly that.
- Engine calls (`writeFile`/`exec`/`readFile`) may succeed or throw;
  `EngineBehavior` is the oracle deciding each, with an optional thrown
  message (JavaScript `err?.message` may be absent or empty).
- Numbers carried by progress events are modelled as rationals; the
  claims under check are not about binary floating-point rounding.
-/

namespace VideoUpscaler

/-- Scale presets, from `type ScalePreset` in page.tsx line 7. -/
inductive ScalePreset
  | twoX
  | threeX
  | fourX
  | p720
  | p1080
  | p4k
deriving DecidableEq

/-- The selected input file: the attributes of a `File` that the
coordinator reads (`file.size` for the guard, `file.name` for the
download link). -/
structure FileInfo where
  name : String
  size : Nat
deriving DecidableEq

/-- One call into the external engine made by a run. -/
inductive EngineCall
  | writeFile
  | exec (args : List String)
  | readFile
deriving DecidableEq

/-- Object-URL lifecycle events, in the order they are issued. -/
inductive UrlEvent
  | create (h : Nat)
  | revoke (h : Nat)
deriving DecidableEq

/-- The component state: one field per `useState` hook of `HomePage`
(page.tsx lines 13-24), plus `videoDims` for the `videoWidth`/`videoHeight`
read off the input video element, the fresh-handle counter `nextHandle`
and the list `revoked` of handles passed to `URL.revokeObjectURL`. -/
structure AppState where
  ffmpegReady : Bool
  loadingCore : Bool
  file : Option FileInfo
  inputUrl : Option Nat
  outputUrl : Option Nat
  progress : Int
  status : String
  scale : ScalePreset
  algo : String
  crf : Nat
  preset : String
  processing : Bool
  videoDims : Nat × Nat
  nextHandle : Nat
  revoked : List Nat
deriving DecidableEq

/-- Size guard threshold, page.tsx line 108: `300 * 1024 * 1024`. -/
def maxBytes : Nat := 300 * 1024 * 1024

/-- The size-limit failure message thrown at page.tsx line 110. -/
def sizeLimitMsg : String := "File too large. Please use a file under 300MB."

/-- JavaScript `err?.message || "Upscaling failed"` (page.tsx line 145):
an absent message, and also an empty one (falsy in JavaScript), fall back
to the generic text. -/
def fallbackOr (m : Option String) : String :=
  match m with
  | none => "Upscaling failed"
  | some t => if t = "" then "Upscaling failed" else t

/-- Translator from page.tsx lines 80-98.  The input-dimension arguments
`w` and `h` are accepted, as in the source, but never read: every branch
returns an expression the engine evaluates itself.  The `default` branch
of the source `switch` is unreachable because `ScalePreset` is exhaustive. -/
def buildScaleFilter (scale : ScalePreset) (algo : String) (w h : ℚ) : String :=
  let flags := "flags=" ++ algo
  match scale with
  | .twoX => "scale=iw*2:ih*2:" ++ flags
  | .threeX => "scale=iw*3:ih*3:" ++ flags
  | .fourX => "scale=iw*4:ih*4:" ++ flags
  | .p720 => "scale='trunc(oh*a/2)*2':720:" ++ flags
  | .p1080 => "scale='trunc(oh*a/2)*2':1080:" ++ flags
  | .p4k => "scale=3840:2160:" ++ flags

/-- The argument list assembled at page.tsx lines 124-133. -/
def buildArgs (scaleFilter : String) (preset : String) (crf : Nat) : List String :=
  ["-i", "input",
   "-vf", scaleFilter,
   "-c:v", "libx264",
   "-preset", preset,
   "-crf", toString crf,
   "-c:a", "copy",
   "-movflags", "+faststart",
   "output.mp4"]

/-- Handles revoked by the cleanup of the revocation effect (page.tsx
lines 63-68) when a commit changes the `[inputUrl, outputUrl]` dependency
pair: the previous `inputUrl` and previous `outputUrl`, both if present. -/
def flushIds (oldIn oldOut newIn newOut : Option Nat) : List Nat :=
  if oldIn = newIn ∧ oldOut = newOut then []
  else oldIn.toList ++ oldOut.toList

/-- File selection, page.tsx lines 70-78, followed by the revocation
effect's cleanup.  Returns the new state and the object-URL events in
issue order: the handler's own synchronous revocation of the previous
input handle (line 75), then the creation of the new input handle
(line 76), then the deferred cleanup revocations. -/
def handleFile (s : AppState) (f : Option FileInfo) : AppState × List UrlEvent :=
  let hrev := s.inputUrl.toList
  match f with
  | some _ =>
    let n := s.nextHandle
    let fl := flushIds s.inputUrl s.outputUrl (some n) none
    ({ s with outputUrl := none, progress := 0, status := "", file := f,
              inputUrl := some n, nextHandle := n + 1,
              revoked := s.revoked ++ hrev ++ fl },
     hrev.map UrlEvent.revoke ++ [UrlEvent.create n] ++ fl.map UrlEvent.revoke)
  | none =>
    let fl := flushIds s.inputUrl s.outputUrl none none
    ({ s with outputUrl := none, progress := 0, status := "", file := none,
              inputUrl := none,
              revoked := s.revoked ++ hrev ++ fl },
     hrev.map UrlEvent.revoke ++ fl.map UrlEvent.revoke)

/-- Outcome oracle for the three engine calls a run makes: whether each
call throws, and the thrown exception's optional `message`. -/
structure EngineBehavior where
  writeOk : Bool
  writeMsg : Option String
  execOk : Bool
  execMsg : Option String
  readOk : Bool
  readMsg : Option String
deriving DecidableEq

/-- Result of one user-visible step: the new state, the engine calls
made, and the object-URL events issued, each in order. -/
structure StepOut where
  state : AppState
  engineCalls : List EngineCall
  urlEvents : List UrlEvent
deriving DecidableEq

/-- The `upscale` function, page.tsx lines 100-149, including the
revocation effect's deferred cleanup after `setOutputUrl(url)`.
Stage order follows the source: guard (line 101), `processing`/status
updates, size guard (lines 108-111), `writeFile` (line 122), `exec`
(line 136), `readFile` (line 138), output URL creation (line 140),
with the `catch` (line 145) and `finally` (line 147) on every throw. -/
def upscale (s : AppState) (eng : EngineBehavior) : StepOut :=
  match s.file with
  | none => ⟨s, [], []⟩
  | some f =>
    if s.ffmpegReady = false then ⟨s, [], []⟩
    else
      let s1 : AppState :=
        { s with processing := true, progress := 0, status := "Preparing..." }
      if maxBytes < f.size then
        ⟨{ s1 with status := sizeLimitMsg, processing := false }, [], []⟩
      else if eng.writeOk = false then
        ⟨{ s1 with status := fallbackOr eng.writeMsg, processing := false },
         [EngineCall.writeFile], []⟩
      else
        let args := buildArgs
          (buildScaleFilter s.scale s.algo (s.videoDims.1 : ℚ) (s.videoDims.2 : ℚ))
          s.preset s.crf
        let s2 : AppState := { s1 with status := "Upscaling..." }
        if eng.execOk = false then
          ⟨{ s2 with status := fallbackOr eng.execMsg, processing := false },
           [EngineCall.writeFile, EngineCall.exec args], []⟩
        else if eng.readOk = false then
          ⟨{ s2 with status := fallbackOr eng.readMsg, processing := false },
           [EngineCall.writeFile, EngineCall.exec args, EngineCall.readFile], []⟩
        else
          let u := s.nextHandle
          let fl := flushIds s.inputUrl s.outputUrl s.inputUrl (some u)
          ⟨{ s2 with status := "Done", processing := false,
                     outputUrl := some u, nextHandle := u + 1,
                     revoked := s.revoked ++ fl },
           [EngineCall.writeFile, EngineCall.exec args, EngineCall.readFile],
           UrlEvent.create u :: fl.map UrlEvent.revoke⟩

/-- The start button's `disabled` expression, page.tsx line 151. -/
def disabledFlag (s : AppState) : Bool :=
  !s.ffmpegReady || s.loadingCore || s.file.isNone || s.processing

/-- Pressing the start control (page.tsx line 232).  A disabled button
fires no handler, so when `disabledFlag` holds the press is a strict
no-op; otherwise it invokes `upscale`. -/
def clickStart (s : AppState) (eng : EngineBehavior) : StepOut :=
  if disabledFlag s then ⟨s, [], []⟩ else upscale s eng

/-- JavaScript `Math.round` on the rationals: round half toward
positive infinity. -/
def jsRound (q : ℚ) : Int := ⌊q + 1 / 2⌋

/-- The progress listener, page.tsx lines 37-39:
`setProgress(Math.round(progress * 100))`. -/
def onProgress (s : AppState) (r : ℚ) : AppState :=
  { s with progress := jsRound (r * 100) }

/-- The log listener, page.tsx lines 40-42: `setStatus(message)`. -/
def onLog (s : AppState) (m : String) : AppState :=
  { s with status := m }

/-- User-visible events driving the component. -/
inductive Op
  | selectFile (f : Option FileInfo)
  | startClick (eng : EngineBehavior)
  | progressEvt (r : ℚ)
  | logEvt (m : String)
  | engineReady
  | chooseScale (p : ScalePreset)
  | chooseAlgo (a : String)
  | chooseCrf (n : Nat)
  | choosePreset (p : String)
  | readDims (d : Nat × Nat)

/-- One transition of the component. -/
def step (s : AppState) : Op → AppState
  | .selectFile f => (handleFile s f).1
  | .startClick eng => (clickStart s eng).state
  | .progressEvt r => onProgress s r
  | .logEvt m => onLog s m
  | .engineReady => { s with ffmpegReady := true, loadingCore := false }
  | .chooseScale p => { s with scale := p }
  | .chooseAlgo a => { s with algo := a }
  | .chooseCrf n => { s with crf := n }
  | .choosePreset p => { s with preset := p }
  | .readDims d => { s with videoDims := d }

/-- Initial component state: the `useState` defaults of page.tsx
lines 13-24, with no handles created or revoked yet. -/
def initState : AppState where
  ffmpegReady := false
  loadingCore := false
  file := none
  inputUrl := none
  outputUrl := none
  progress := 0
  status := ""
  scale := ScalePreset.twoX
  algo := "lanczos"
  crf := 20
  preset := "medium"
  processing := false
  videoDims := (0, 0)
  nextHandle := 0
  revoked := []

/-- The state reached after a sequence of user-visible events. -/
def runApp (ops : List Op) : AppState :=
  ops.foldl step initState

/-- A handle has been created and not yet revoked. -/
def handleLive (s : AppState) (h : Nat) : Prop :=
  h < s.nextHandle ∧ h ∉ s.revoked

/-- Basic well-formedness: every handle the state mentions was created. -/
def wfHandles (s : AppState) : Bool :=
  s.inputUrl.all (· < s.nextHandle) &&
  s.outputUrl.all (· < s.nextHandle) &&
  s.revoked.all (· < s.nextHandle)

/-- The handle-lifecycle invariant: the state is well-formed and every
live handle is the one currently referenced as the input display handle
or the one referenced as the output handle — so at a step boundary at
most one input display handle and at most one output handle are live. -/
def stateInv (s : AppState) : Prop :=
  wfHandles s = true ∧
  ∀ h : Nat, handleLive s h → s.inputUrl = some h ∨ s.outputUrl = some h

/-- Whether, in an event trace, a revocation of handle `b` happens
strictly before the creation of handle `u`: scanning left to right,
`create u` first means false, `revoke b` first means true provided the
creation does occur later. -/
def revokeBeforeCreate (b u : Nat) : List UrlEvent → Bool
  | [] => false
  | e :: rest =>
    if e = UrlEvent.create u then false
    else if e = UrlEvent.revoke b then decide (UrlEvent.create u ∈ rest)
    else revokeBeforeCreate b u rest

/-- Drop a literal pattern from the front of a character list, returning
the remainder when the pattern matches. -/
def stripPref : List Char → List Char → Option (List Char)
  | [], cs => some cs
  | _ :: _, [] => none
  | p :: ps, c :: cs => if c = p then stripPref ps cs else none

/-- Whether two character lists disagree at some position before either
ends (so no extension of the second can start with the first). -/
def earlyMismatch : List Char → List Char → Bool
  | [], _ => false
  | _, [] => false
  | p :: ps, c :: cs => if c = p then earlyMismatch ps cs else true

/-- Truncation of a rational toward zero, as the C `trunc` used by the
engine's expression evaluator: quotient of numerator by denominator with
truncated division. -/
def ratTrunc (q : ℚ) : Int := q.num.tdiv q.den

/-- Modelled from the spec: the external engine's evaluation of the
`scale` video-filter strings this translator emits, which is not part of
this repository.  `iw`/`ih` are the input dimensions, `oh` the output
height, `a = iw/ih` the input aspect ratio, `trunc` rounds toward zero,
and a `flags=` suffix names the resampling algorithm without affecting
the output dimensions.  Only the six expression shapes produced by
`buildScaleFilter` are given a meaning. -/
def evalChars (cs : List Char) (iw ih : ℚ) : Option (ℚ × ℚ) :=
  match stripPref "scale=iw*2:ih*2:flags=".data cs with
  | some _ => some (iw * 2, ih * 2)
  | none =>
  match stripPref "scale=iw*3:ih*3:flags=".data cs with
  | some _ => some (iw * 3, ih * 3)
  | none =>
  match stripPref "scale=iw*4:ih*4:flags=".data cs with
  | some _ => some (iw * 4, ih * 4)
  | none =>
  match stripPref "scale='trunc(oh*a/2)*2':720:flags=".data cs with
  | some _ => some ((ratTrunc (720 * (iw / ih) / 2) * 2 : Int), 720)
  | none =>
  match stripPref "scale='trunc(oh*a/2)*2':1080:flags=".data cs with
  | some _ => some ((ratTrunc (1080 * (iw / ih) / 2) * 2 : Int), 1080)
  | none =>
  match stripPref "scale=3840:2160:flags=".data cs with
  | some _ => some (3840, 2160)
  | none => none

/-- Engine semantics of a scale-filter string, on its character data. -/
def evalScaleString (s : String) (iw ih : ℚ) : Option (ℚ × ℚ) :=
  evalChars s.data iw ih

theorem stripPref_self_append (p rest : List Char) :
    stripPref p (p ++ rest) = some rest := by
  induction p with
  | nil => rfl
  | cons c cs ih => simp [stripPref, ih]

theorem stripPref_mismatch_append {p l : List Char}
    (hm : earlyMismatch p l = true) (rest : List Char) :
    stripPref p (l ++ rest) = none := by
  induction p generalizing l with
  | nil => cases l <;> simp [earlyMismatch] at hm
  | cons c cs ih =>
    cases l with
    | nil => simp [earlyMismatch] at hm
    | cons d ds =>
      by_cases hdc : d = c
      · subst hdc
        simp [earlyMismatch] at hm
        simpa [stripPref] using ih hm
      · simp [stripPref, hdc]

theorem evalScale_twoX (algo : String) (iw ih : ℚ) :
    evalScaleString (buildScaleFilter .twoX algo iw ih) iw ih =
      some (iw * 2, ih * 2) := by
  unfold evalScaleString
  rw [show (buildScaleFilter .twoX algo iw ih).data
        = "scale=iw*2:ih*2:flags=".data ++ algo.data from rfl]
  unfold evalChars
  rw [stripPref_self_append]

theorem evalScale_threeX (algo : String) (iw ih : ℚ) :
    evalScaleString (buildScaleFilter .threeX algo iw ih) iw ih =
      some (iw * 3, ih * 3) := by
  unfold evalScaleString
  rw [show (buildScaleFilter .threeX algo iw ih).data
        = "scale=iw*3:ih*3:flags=".data ++ algo.data from rfl]
  unfold evalChars
  have h1 : stripPref "scale=iw*2:ih*2:flags=".data
      ("scale=iw*3:ih*3:flags=".data ++ algo.data) = none :=
    stripPref_mismatch_append (by decide) algo.data
  rw [h1, stripPref_self_append]

theorem evalScale_fourX (algo : String) (iw ih : ℚ) :
    evalScaleString (buildScaleFilter .fourX algo iw ih) iw ih =
      some (iw * 4, ih * 4) := by
  unfold evalScaleString
  rw [show (buildScaleFilter .fourX algo iw ih).data
        = "scale=iw*4:ih*4:flags=".data ++ algo.data from rfl]
  unfold evalChars
  have h1 : stripPref "scale=iw*2:ih*2:flags=".data
      ("scale=iw*4:ih*4:flags=".data ++ algo.data) = none :=
    stripPref_mismatch_append (by decide) algo.data
  have h2 : stripPref "scale=iw*3:ih*3:flags=".data
      ("scale=iw*4:ih*4:flags=".data ++ algo.data) = none :=
    stripPref_mismatch_append (by decide) algo.data
  rw [h1, h2, stripPref_self_append]

theorem evalScale_p720 (algo : String) (iw ih : ℚ) :
    evalScaleString (buildScaleFilter .p720 algo iw ih) iw ih =
      some (((ratTrunc (720 * (iw / ih) / 2) * 2 : Int) : ℚ), 720) := by
  unfold evalScaleString
  rw [show (buildScaleFilter .p720 algo iw ih).data
        = "scale='trunc(oh*a/2)*2':720:flags=".data ++ algo.data from rfl]
  unfold evalChars
  have h1 : stripPref "scale=iw*2:ih*2:flags=".data
      ("scale='trunc(oh*a/2)*2':720:flags=".data ++ algo.data) = none :=
    stripPref_mismatch_append (by decide) algo.data
  have h2 : stripPref "scale=iw*3:ih*3:flags=".data
      ("scale='trunc(oh*a/2)*2':720:flags=".data ++ algo.data) = none :=
    stripPref_mismatch_append (by decide) algo.data
  have h3 : stripPref "scale=iw*4:ih*4:flags=".data
      ("scale='trunc(oh*a/2)*2':720:flags=".data ++ algo.data) = none :=
    stripPref_mismatch_append (by decide) algo.data
  rw [h1, h2, h3, stripPref_self_append]

theorem evalScale_p1080 (algo : String) (iw ih : ℚ) :
    evalScaleString (buildScaleFilter .p1080 algo iw ih) iw ih =
      some (((ratTrunc (1080 * (iw / ih) / 2) * 2 : Int) : ℚ), 1080) := by
  unfold evalScaleString
  rw [show (buildScaleFilter .p1080 algo iw ih).data
        = "scale='trunc(oh*a/2)*2':1080:flags=".data ++ algo.data from rfl]
  unfold evalChars
  have h1 : stripPref "scale=iw*2:ih*2:flags=".data
      ("scale='trunc(oh*a/2)*2':1080:flags=".data ++ algo.data) = none :=
    stripPref_mismatch_append (by decide) algo.data
  have h2 : stripPref "scale=iw*3:ih*3:flags=".data
      ("scale='trunc(oh*a/2)*2':1080:flags=".data ++ algo.data) = none :=
    stripPref_mismatch_append (by decide) algo.data
  have h3 : stripPref "scale=iw*4:ih*4:flags=".data
      ("scale='trunc(oh*a/2)*2':1080:flags=".data ++ algo.data) = none :=
    stripPref_mismatch_append (by decide) algo.data
  have h4 : stripPref "scale='trunc(oh*a/2)*2':720:flags=".data
      ("scale='trunc(oh*a/2)*2':1080:flags=".data ++ algo.data) = none :=
    stripPref_mismatch_append (by decide) algo.data
  rw [h1, h2, h3, h4, stripPref_self_append]

theorem evalScale_p4k (algo : String) (iw ih : ℚ) :
    evalScaleString (buildScaleFilter .p4k algo iw ih) iw ih =
      some (3840, 2160) := by
  unfold evalScaleString
  rw [show (buildScaleFilter .p4k algo iw ih).data
        = "scale=3840:2160:flags=".data ++ algo.data from rfl]
  unfold evalChars
  have h1 : stripPref "scale=iw*2:ih*2:flags=".data
      ("scale=3840:2160:flags=".data ++ algo.data) = none :=
    stripPref_mismatch_append (by decide) algo.data
  have h2 : stripPref "scale=iw*3:ih*3:flags=".data
      ("scale=3840:2160:flags=".data ++ algo.data) = none :=
    stripPref_mismatch_append (by decide) algo.data
  have h3 : stripPref "scale=iw*4:ih*4:flags=".data
      ("scale=3840:2160:flags=".data ++ algo.data) = none :=
    stripPref_mismatch_append (by decide) algo.data
  have h4 : stripPref "scale='trunc(oh*a/2)*2':720:flags=".data
      ("scale=3840:2160:flags=".data ++ algo.data) = none :=
    stripPref_mismatch_append (by decide) algo.data
  have h5 : stripPref "scale='trunc(oh*a/2)*2':1080:flags=".data
      ("scale=3840:2160:flags=".data ++ algo.data) = none :=
    stripPref_mismatch_append (by decide) algo.data
  rw [h1, h2, h3, h4, h5, stripPref_self_append]

theorem ratTrunc_eq_floor {q : ℚ} (hq : 0 ≤ q) : ratTrunc q = ⌊q⌋ := by
  unfold ratTrunc
  rw [Rat.floor_def]
  exact Int.tdiv_eq_ediv (Rat.num_nonneg.mpr hq) (Int.natCast_nonneg q.den)

theorem twiceFloorHalf_bounds (x : ℚ) :
    ((2 * ⌊x / 2⌋ : Int) : ℚ) ≤ x ∧ x < ((2 * ⌊x / 2⌋ : Int) : ℚ) + 2 := by
  have h1 : ((⌊x / 2⌋ : Int) : ℚ) ≤ x / 2 := Int.floor_le _
  have h2 : x / 2 < ((⌊x / 2⌋ : Int) : ℚ) + 1 := Int.lt_floor_add_one _
  push_cast
  constructor <;> linarith

/-- C5: for input dimensions 1280x720, preset 2x and algorithm bicubic,
the translator emits `scale=iw*2:ih*2:flags=bicubic`, whose engine
evaluation targets 2560x1440; and for every parameter choice the
argument list appends the fixed encode tail: `libx264` video encoding,
the selected speed preset, the selected CRF value, `-c:a copy`, and
`-movflags +faststart`. -/
theorem C5_example_and_fixed_encode_args :
    buildScaleFilter .twoX "bicubic" 1280 720 = "scale=iw*2:ih*2:flags=bicubic" ∧
    evalScaleString (buildScaleFilter .twoX "bicubic" 1280 720) 1280 720 =
      some (2560, 1440) ∧
    ∀ (sf enc : String) (crf : Nat),
      buildArgs sf enc crf =
        ["-i", "input", "-vf", sf] ++
        ["-c:v", "libx264", "-preset", enc, "-crf", toString crf,
         "-c:a", "copy", "-movflags", "+faststart", "output.mp4"] := by
  refine ⟨rfl, ?_, fun sf enc crf => rfl⟩
  rw [evalScale_twoX]
  norm_num

/-- C8: for the fixed-height presets the translator fixes the output
height (720 or 1080) and the emitted expression evaluates the width as
the aspect-preserving value `height * (iw/ih)` rounded down to the
nearest even integer: the width is the even number `2 * floor(target/2)`,
which is at most the aspect-preserving target and within 2 of it. -/
theorem C8_fixed_height_even_width (algo : String) (iw ih : ℚ)
    (hiw : 0 < iw) (hih : 0 < ih) :
    (evalScaleString (buildScaleFilter .p720 algo iw ih) iw ih =
        some (((2 * ⌊720 * (iw / ih) / 2⌋ : Int) : ℚ), 720) ∧
      ((2 * ⌊720 * (iw / ih) / 2⌋ : Int) : ℚ) ≤ 720 * (iw / ih) ∧
      720 * (iw / ih) < ((2 * ⌊720 * (iw / ih) / 2⌋ : Int) : ℚ) + 2) ∧
    (evalScaleString (buildScaleFilter .p1080 algo iw ih) iw ih =
        some (((2 * ⌊1080 * (iw / ih) / 2⌋ : Int) : ℚ), 1080) ∧
      ((2 * ⌊1080 * (iw / ih) / 2⌋ : Int) : ℚ) ≤ 1080 * (iw / ih) ∧
      1080 * (iw / ih) < ((2 * ⌊1080 * (iw / ih) / 2⌋ : Int) : ℚ) + 2) := by
  have hratio : (0 : ℚ) ≤ iw / ih := by positivity
  have h720 : (0 : ℚ) ≤ 720 * (iw / ih) / 2 := by positivity
  have h1080 : (0 : ℚ) ≤ 1080 * (iw / ih) / 2 := by positivity
  refine ⟨⟨?_, twiceFloorHalf_bounds _⟩, ⟨?_, twiceFloorHalf_bounds _⟩⟩
  · rw [evalScale_p720, ratTrunc_eq_floor h720]
    rw [Int.mul_comm]
  · rw [evalScale_p1080, ratTrunc_eq_floor h1080]
    rw [Int.mul_comm]

/-- C8 witness: a 1280x720 source with the 720p preset keeps its
dimensions (width 2*floor(640) = 1280) and the bound facts hold. -/
theorem C8_witness :
    (evalScaleString (buildScaleFilter .p720 "lanczos" 1280 720) 1280 720 =
        some (((2 * ⌊720 * ((1280 : ℚ) / 720) / 2⌋ : Int) : ℚ), 720) ∧
      ((2 * ⌊720 * ((1280 : ℚ) / 720) / 2⌋ : Int) : ℚ) ≤ 720 * ((1280 : ℚ) / 720) ∧
      720 * ((1280 : ℚ) / 720) < ((2 * ⌊720 * ((1280 : ℚ) / 720) / 2⌋ : Int) : ℚ) + 2) ∧
    (evalScaleString (buildScaleFilter .p1080 "lanczos" 1280 720) 1280 720 =
        some (((2 * ⌊1080 * ((1280 : ℚ) / 720) / 2⌋ : Int) : ℚ), 1080) ∧
      ((2 * ⌊1080 * ((1280 : ℚ) / 720) / 2⌋ : Int) : ℚ) ≤ 1080 * ((1280 : ℚ) / 720) ∧
      1080 * ((1280 : ℚ) / 720) < ((2 * ⌊1080 * ((1280 : ℚ) / 720) / 2⌋ : Int) : ℚ) + 2) :=
  C8_fixed_height_even_width "lanczos" 1280 720 (by norm_num) (by norm_num)

/-- C9: the 4k preset always emits a filter targeting exactly 3840x2160,
for every resampling algorithm and every input dimensions. -/
theorem C9_4k_fixed_target (algo : String) (iw ih : ℚ) :
    buildScaleFilter .p4k algo iw ih = "scale=3840:2160:flags=" ++ algo ∧
    evalScaleString (buildScaleFilter .p4k algo iw ih) iw ih =
      some (3840, 2160) :=
  ⟨rfl, evalScale_p4k algo iw ih⟩

/-- C10: the translator's output never depends on its input-dimension
arguments, and the multiplicative presets emit relative `iw*N:ih*N`
expressions even when dimensions are known. -/
theorem C10_dimension_independent (scale : ScalePreset) (algo : String)
    (w1 h1 w2 h2 : ℚ) :
    buildScaleFilter scale algo w1 h1 = buildScaleFilter scale algo w2 h2 ∧
    buildScaleFilter .twoX algo w1 h1 = "scale=iw*2:ih*2:flags=" ++ algo ∧
    buildScaleFilter .threeX algo w1 h1 = "scale=iw*3:ih*3:flags=" ++ algo ∧
    buildScaleFilter .fourX algo w1 h1 = "scale=iw*4:ih*4:flags=" ++ algo := by
  refine ⟨?_, rfl, rfl, rfl⟩
  cases scale <;> rfl

/-- C4: a progress event with ratio `r` sets the percentage state to
`Math.round(r * 100)`, which for ratios in [0,1] equals its own clamp to
[0,100], lies in [0,100], and is monotone in the ratio — so successive
events with non-decreasing ratios yield non-decreasing percentages. -/
theorem C4_progress_clamped_monotone (s s' : AppState) (r r' : ℚ)
    (h0 : 0 ≤ r) (h1 : r ≤ 1) (h0' : 0 ≤ r') (h1' : r' ≤ 1) (hmono : r ≤ r') :
    (onProgress s r).progress = jsRound (r * 100) ∧
    jsRound (r * 100) = max 0 (min 100 (jsRound (r * 100))) ∧
    0 ≤ (onProgress s r).progress ∧
    (onProgress s r).progress ≤ 100 ∧
    (onProgress s r).progress ≤ (onProgress s' r').progress := by
  have hval : ∀ (t : AppState) (q : ℚ),
      (onProgress t q).progress = ⌊q * 100 + 1 / 2⌋ := fun t q => rfl
  have low : (0 : Int) ≤ ⌊r * 100 + 1 / 2⌋ :=
    Int.floor_nonneg.mpr (by linarith)
  have highlt : ⌊r * 100 + 1 / 2⌋ < 101 :=
    Int.floor_lt.mpr (by push_cast; linarith)
  have mono : ⌊r * 100 + 1 / 2⌋ ≤ ⌊r' * 100 + 1 / 2⌋ :=
    Int.floor_le_floor (by linarith)
  refine ⟨rfl, ?_, ?_, ?_, ?_⟩
  · unfold jsRound
    omega
  · rw [hval]
    exact low
  · rw [hval]
    omega
  · rw [hval, hval]
    exact mono

/-- C4 witness: ratios 1/4 then 1/2 give in-range, non-decreasing
percentages. -/
theorem C4_witness :
    (onProgress initState (1/4)).progress = jsRound ((1/4 : ℚ) * 100) ∧
    jsRound ((1/4 : ℚ) * 100) = max 0 (min 100 (jsRound ((1/4 : ℚ) * 100))) ∧
    0 ≤ (onProgress initState (1/4)).progress ∧
    (onProgress initState (1/4)).progress ≤ 100 ∧
    (onProgress initState (1/4)).progress ≤ (onProgress initState (1/2)).progress :=
  C4_progress_clamped_monotone initState initState (1/4) (1/2)
    (by norm_num) (by norm_num) (by norm_num) (by norm_num) (by norm_num)

theorem upscale_size_guard (s : AppState) (eng : EngineBehavior) (f : FileInfo)
    (hready : s.ffmpegReady = true) (hfile : s.file = some f)
    (hsize : maxBytes < f.size) :
    upscale s eng =
      ⟨{ s with processing := false, progress := 0, status := sizeLimitMsg },
       [], []⟩ := by
  unfold upscale
  rw [hfile]
  simp [hready, hsize]

theorem upscale_write_fail (s : AppState) (eng : EngineBehavior) (f : FileInfo)
    (hready : s.ffmpegReady = true) (hfile : s.file = some f)
    (hsize : f.size ≤ maxBytes) (hw : eng.writeOk = false) :
    upscale s eng =
      ⟨{ s with processing := false, progress := 0,
                status := fallbackOr eng.writeMsg },
       [EngineCall.writeFile], []⟩ := by
  unfold upscale
  rw [hfile]
  simp [hready, Nat.not_lt.mpr hsize, hw]

theorem upscale_exec_fail (s : AppState) (eng : EngineBehavior) (f : FileInfo)
    (hready : s.ffmpegReady = true) (hfile : s.file = some f)
    (hsize : f.size ≤ maxBytes) (hw : eng.writeOk = true)
    (hx : eng.execOk = false) :
    upscale s eng =
      ⟨{ s with processing := false, progress := 0,
                status := fallbackOr eng.execMsg },
       [EngineCall.writeFile,
        EngineCall.exec (buildArgs
          (buildScaleFilter s.scale s.algo (s.videoDims.1 : ℚ) (s.videoDims.2 : ℚ))
          s.preset s.crf)],
       []⟩ := by
  unfold upscale
  rw [hfile]
  simp [hready, Nat.not_lt.mpr hsize, hw, hx]

theorem upscale_read_fail (s : AppState) (eng : EngineBehavior) (f : FileInfo)
    (hready : s.ffmpegReady = true) (hfile : s.file = some f)
    (hsize : f.size ≤ maxBytes) (hw : eng.writeOk = true)
    (hx : eng.execOk = true) (hr : eng.readOk = false) :
    upscale s eng =
      ⟨{ s with processing := false, progress := 0,
                status := fallbackOr eng.readMsg },
       [EngineCall.writeFile,
        EngineCall.exec (buildArgs
          (buildScaleFilter s.scale s.algo (s.videoDims.1 : ℚ) (s.videoDims.2 : ℚ))
          s.preset s.crf),
        EngineCall.readFile],
       []⟩ := by
  unfold upscale
  rw [hfile]
  simp [hready, Nat.not_lt.mpr hsize, hw, hx, hr]

theorem upscale_success (s : AppState) (eng : EngineBehavior) (f : FileInfo)
    (hready : s.ffmpegReady = true) (hfile : s.file = some f)
    (hsize : f.size ≤ maxBytes) (hw : eng.writeOk = true)
    (hx : eng.execOk = true) (hr : eng.readOk = true) :
    upscale s eng =
      ⟨{ s with processing := false, progress := 0, status := "Done",
                outputUrl := some s.nextHandle,
                nextHandle := s.nextHandle + 1,
                revoked := s.revoked ++
                  flushIds s.inputUrl s.outputUrl s.inputUrl (some s.nextHandle) },
       [EngineCall.writeFile,
        EngineCall.exec (buildArgs
          (buildScaleFilter s.scale s.algo (s.videoDims.1 : ℚ) (s.videoDims.2 : ℚ))
          s.preset s.crf),
        EngineCall.readFile],
       UrlEvent.create s.nextHandle ::
         (flushIds s.inputUrl s.outputUrl s.inputUrl (some s.nextHandle)).map
           UrlEvent.revoke⟩ := by
  unfold upscale
  rw [hfile]
  simp [hready, Nat.not_lt.mpr hsize, hw, hx, hr]

theorem upscale_not_ready (s : AppState) (eng : EngineBehavior)
    (h : s.ffmpegReady = false ∨ s.file = none) :
    upscale s eng = ⟨s, [], []⟩ := by
  unfold upscale
  rcases hf : s.file with _ | f
  · rfl
  · rcases h with h | h
    · simp [h]
    · rw [hf] at h
      exact absurd h (by simp)

theorem upscale_fail_no_output (s : AppState) (eng : EngineBehavior)
    (h : eng.writeOk = false ∨ eng.execOk = false ∨ eng.readOk = false) :
    (upscale s eng).state.outputUrl = s.outputUrl ∧
    (upscale s eng).urlEvents = [] := by
  rcases hf : s.file with _ | f
  · rw [upscale_not_ready s eng (Or.inr hf)]
    exact ⟨rfl, rfl⟩
  · rcases hready : s.ffmpegReady with _ | _
    · rw [upscale_not_ready s eng (Or.inl hready)]
      exact ⟨rfl, rfl⟩
    · by_cases hsize : maxBytes < f.size
      · rw [upscale_size_guard s eng f hready hf hsize]
        exact ⟨rfl, rfl⟩
      · have hsz : f.size ≤ maxBytes := Nat.not_lt.mp hsize
        rcases hw : eng.writeOk with _ | _
        · rw [upscale_write_fail s eng f hready hf hsz hw]
          exact ⟨rfl, rfl⟩
        · rcases hx : eng.execOk with _ | _
          · rw [upscale_exec_fail s eng f hready hf hsz hw hx]
            exact ⟨rfl, rfl⟩
          · rcases hr : eng.readOk with _ | _
            · rw [upscale_read_fail s eng f hready hf hsz hw hx hr]
              exact ⟨rfl, rfl⟩
            · rcases h with h | h | h
              · rw [hw] at h
                cases h
              · rw [hx] at h
                cases h
              · rw [hr] at h
                cases h

/-- C1: pressing start is rejected with no engine interaction when the
engine is not ready, no file is selected, or a run is already active —
in those three cases the press is a strict no-op — and likewise when the
selected file exceeds 300 MiB, in which case too no engine call occurs
and no output handle is produced. -/
theorem C1_start_rejections (s : AppState) (eng : EngineBehavior) :
    ((s.ffmpegReady = false ∨ s.file = none ∨ s.processing = true) →
      clickStart s eng = ⟨s, [], []⟩) ∧
    (∀ f : FileInfo, s.file = some f → maxBytes < f.size →
      (clickStart s eng).engineCalls = [] ∧
      (clickStart s eng).urlEvents = [] ∧
      (clickStart s eng).state.outputUrl = s.outputUrl) := by
  constructor
  · intro hcase
    have hd : disabledFlag s = true := by
      unfold disabledFlag
      rcases hcase with h | h | h <;> simp [h]
    unfold clickStart
    rw [hd]
    rfl
  · intro f hfile hsize
    unfold clickStart
    by_cases hd : disabledFlag s = true
    · rw [hd]
      exact ⟨rfl, rfl, rfl⟩
    · have hd' : disabledFlag s = false := by
        rcases hb : disabledFlag s with _ | _
        · rfl
        · exact absurd hb hd
      have hready : s.ffmpegReady = true := by
        unfold disabledFlag at hd'
        rcases hb : s.ffmpegReady with _ | _
        · rw [hb] at hd'
          simp at hd'
        · rfl
      rw [hd']
      simp only [Bool.false_eq_true, if_false]
      rw [upscale_size_guard s eng f hready hfile hsize]
      exact ⟨rfl, rfl, rfl⟩

/-- C2: an oversize file (more than 300 MiB = 300*1024*1024 bytes) makes
the run fail synchronously with the size-limit message: no engine call,
no object-URL activity, output handle unchanged, running flag cleared. -/
theorem C2_size_limit_failure (s : AppState) (eng : EngineBehavior) (f : FileInfo)
    (hready : s.ffmpegReady = true) (hfile : s.file = some f)
    (hsize : maxBytes < f.size) :
    (upscale s eng).state.status = sizeLimitMsg ∧
    (upscale s eng).state.processing = false ∧
    (upscale s eng).engineCalls = [] ∧
    (upscale s eng).urlEvents = [] ∧
    (upscale s eng).state.outputUrl = s.outputUrl := by
  rw [upscale_size_guard s eng f hready hfile hsize]
  exact ⟨rfl, rfl, rfl, rfl, rfl⟩

/-- C7: a throw in any engine stage ends the run with the status text set
by `err?.message || "Upscaling failed"`, the running flag cleared, and no
output handle produced; the final conjunct pins the message extraction:
fallback exactly when the message is absent or empty. -/
theorem C7_failure_reporting (s : AppState) (eng : EngineBehavior) (f : FileInfo)
    (hready : s.ffmpegReady = true) (hfile : s.file = some f)
    (hsize : f.size ≤ maxBytes) :
    (eng.writeOk = false →
      (upscale s eng).state.status = fallbackOr eng.writeMsg ∧
      (upscale s eng).state.processing = false ∧
      (upscale s eng).state.outputUrl = s.outputUrl ∧
      (upscale s eng).urlEvents = []) ∧
    (eng.writeOk = true → eng.execOk = false →
      (upscale s eng).state.status = fallbackOr eng.execMsg ∧
      (upscale s eng).state.processing = false ∧
      (upscale s eng).state.outputUrl = s.outputUrl ∧
      (upscale s eng).urlEvents = []) ∧
    (eng.writeOk = true → eng.execOk = true → eng.readOk = false →
      (upscale s eng).state.status = fallbackOr eng.readMsg ∧
      (upscale s eng).state.processing = false ∧
      (upscale s eng).state.outputUrl = s.outputUrl ∧
      (upscale s eng).urlEvents = []) ∧
    (fallbackOr none = "Upscaling failed" ∧
     fallbackOr (some "") = "Upscaling failed" ∧
     ∀ m : String, m ≠ "" → fallbackOr (some m) = m) := by
  refine ⟨?_, ?_, ?_, rfl, rfl, fun m hm => by simp [fallbackOr, hm]⟩
  · intro hw
    rw [upscale_write_fail s eng f hready hfile hsize hw]
    exact ⟨rfl, rfl, rfl, rfl⟩
  · intro hw hx
    rw [upscale_exec_fail s eng f hready hfile hsize hw hx]
    exact ⟨rfl, rfl, rfl, rfl⟩
  · intro hw hx hr
    rw [upscale_read_fail s eng f hready hfile hsize hw hx hr]
    exact ⟨rfl, rfl, rfl, rfl⟩

theorem wfHandles_facts (s : AppState) (hwf : wfHandles s = true) :
    (∀ a, s.inputUrl = some a → a < s.nextHandle) ∧
    (∀ b, s.outputUrl = some b → b < s.nextHandle) ∧
    (∀ y ∈ s.revoked, y < s.nextHandle) := by
  unfold wfHandles at hwf
  simp only [Bool.and_eq_true] at hwf
  obtain ⟨⟨hin, hout⟩, hrev⟩ := hwf
  refine ⟨fun a ha => ?_, fun b hb => ?_, fun y hy => ?_⟩
  · rw [ha] at hin
    simpa [Option.all] using hin
  · rw [hb] at hout
    simpa [Option.all] using hout
  · have := List.all_eq_true.mp hrev y hy
    simpa using this

theorem mem_flushIds (oldIn oldOut newIn newOut : Option Nat) (y : Nat)
    (hy : y ∈ flushIds oldIn oldOut newIn newOut) :
    oldIn = some y ∨ oldOut = some y := by
  unfold flushIds at hy
  by_cases hc : oldIn = newIn ∧ oldOut = newOut
  · simp [hc] at hy
  · rw [if_neg hc] at hy
    rcases List.mem_append.mp hy with h | h
    · left
      cases oldIn <;> simp_all
    · right
      cases oldOut <;> simp_all

/-- C6: a successful run produces exactly the fresh output handle — it is
referenced, live (not revoked), the status is the terminal success text —
and any previously existing output handle has been revoked by the
cleanup; an output handle is created only on success: every failing run
leaves the output reference unchanged and issues no URL events at all. -/
theorem C6_output_handle_lifecycle (s : AppState) (eng : EngineBehavior)
    (f : FileInfo) (hwf : wfHandles s = true)
    (hready : s.ffmpegReady = true) (hfile : s.file = some f)
    (hsize : f.size ≤ maxBytes) (hw : eng.writeOk = true)
    (hx : eng.execOk = true) (hr : eng.readOk = true) :
    (upscale s eng).state.outputUrl = some s.nextHandle ∧
    s.nextHandle ∉ (upscale s eng).state.revoked ∧
    (∀ b, s.outputUrl = some b → b ∈ (upscale s eng).state.revoked) ∧
    (upscale s eng).state.status = "Done" ∧
    (∀ eng' : EngineBehavior,
      eng'.writeOk = false ∨ eng'.execOk = false ∨ eng'.readOk = false →
      (upscale s eng').state.outputUrl = s.outputUrl ∧
      (upscale s eng').urlEvents = []) := by
  obtain ⟨hin, hout, hrev⟩ := wfHandles_facts s hwf
  rw [upscale_success s eng f hready hfile hsize hw hx hr]
  refine ⟨rfl, ?_, ?_, rfl, fun eng' h => upscale_fail_no_output s eng' h⟩
  · intro hmem
    simp only [List.mem_append] at hmem
    rcases hmem with hmem | hmem
    · exact absurd (hrev _ hmem) (lt_irrefl _)
    · rcases mem_flushIds _ _ _ _ _ hmem with h | h
      · exact absurd (hin _ h) (lt_irrefl _)
      · exact absurd (hout _ h) (lt_irrefl _)
  · intro b hb
    simp only [List.mem_append]
    right
    have hbne : s.outputUrl ≠ some s.nextHandle := by
      rw [hb]
      intro hcontra
      have : b = s.nextHandle := by
        injection hcontra
      exact absurd (this ▸ hout b hb) (lt_irrefl _)
    unfold flushIds
    rw [if_neg (by simp [hbne])]
    rw [List.mem_append]
    right
    simp [hb]

/-- Engine oracle where every call succeeds. -/
def engOk : EngineBehavior := ⟨true, none, true, none, true, none⟩

/-- Engine oracle whose `writeFile` throws an exception carrying a
message. -/
def engWriteBoom : EngineBehavior := ⟨false, some "boom", true, none, true, none⟩

/-- A small selected file, under the size threshold. -/
def fileSmall : FileInfo := ⟨"clip.mp4", 1000⟩

/-- A file one byte over the 300 MiB threshold. -/
def fileBig : FileInfo := ⟨"big.mp4", 300 * 1024 * 1024 + 1⟩

/-- Ready state with a small file selected and a run already active. -/
def sBusy : AppState :=
  { initState with ffmpegReady := true, file := some fileSmall,
                   inputUrl := some 0, nextHandle := 1, processing := true }

/-- Ready state with the oversize file selected. -/
def sBig : AppState :=
  { initState with ffmpegReady := true, file := some fileBig,
                   inputUrl := some 0, nextHandle := 1 }

/-- Ready idle state with a small file selected, a live input handle and
a live output handle from an earlier run. -/
def sReady : AppState :=
  { initState with ffmpegReady := true, file := some fileSmall,
                   inputUrl := some 0, outputUrl := some 1, nextHandle := 2 }

/-- C1 witness: with a run active the press is a strict no-op, and with
an oversize file no engine call or URL event occurs. -/
theorem C1_witness :
    clickStart sBusy engOk = ⟨sBusy, [], []⟩ ∧
    ((clickStart sBig engOk).engineCalls = [] ∧
     (clickStart sBig engOk).urlEvents = [] ∧
     (clickStart sBig engOk).state.outputUrl = sBig.outputUrl) :=
  ⟨(C1_start_rejections sBusy engOk).1 (Or.inr (Or.inr rfl)),
   (C1_start_rejections sBig engOk).2 fileBig rfl (by decide)⟩

/-- C2 witness: the oversize run at `sBig` fails with the size message
and touches nothing. -/
theorem C2_witness :
    (upscale sBig engOk).state.status = sizeLimitMsg ∧
    (upscale sBig engOk).state.processing = false ∧
    (upscale sBig engOk).engineCalls = [] ∧
    (upscale sBig engOk).urlEvents = [] ∧
    (upscale sBig engOk).state.outputUrl = sBig.outputUrl :=
  C2_size_limit_failure sBig engOk fileBig rfl rfl (by decide)

/-- C7 witness: a throwing `writeFile` with message "boom" surfaces that
message, clears the running flag and produces no output handle. -/
theorem C7_witness :
    (upscale sReady engWriteBoom).state.status = fallbackOr engWriteBoom.writeMsg ∧
    (upscale sReady engWriteBoom).state.processing = false ∧
    (upscale sReady engWriteBoom).state.outputUrl = sReady.outputUrl ∧
    (upscale sReady engWriteBoom).urlEvents = [] :=
  (C7_failure_reporting sReady engWriteBoom fileSmall rfl rfl (by decide)).1 rfl

/-- C6 witness: at `sReady` the successful run yields live handle 2 with
the prior output handle 1 revoked, and a write-failing run creates
nothing. -/
theorem C6_witness :
    (upscale sReady engOk).state.outputUrl = some sReady.nextHandle ∧
    sReady.nextHandle ∉ (upscale sReady engOk).state.revoked ∧
    (1 : Nat) ∈ (upscale sReady engOk).state.revoked ∧
    (upscale sReady engOk).state.status = "Done" ∧
    (upscale sReady engWriteBoom).state.outputUrl = sReady.outputUrl ∧
    (upscale sReady engWriteBoom).urlEvents = [] := by
  have H := C6_output_handle_lifecycle sReady engOk fileSmall (by decide)
    rfl rfl (by decide) rfl rfl rfl
  have Hfail := H.2.2.2.2 engWriteBoom (Or.inl rfl)
  exact ⟨H.1, H.2.1, H.2.2.1 1 rfl, H.2.2.2.1, Hfail.1, Hfail.2⟩

theorem handleFile_some (s : AppState) (g : FileInfo) :
    handleFile s (some g) =
      ({ s with outputUrl := none, progress := 0, status := "",
                file := some g, inputUrl := some s.nextHandle,
                nextHandle := s.nextHandle + 1,
                revoked := s.revoked ++ s.inputUrl.toList ++
                  flushIds s.inputUrl s.outputUrl (some s.nextHandle) none },
       s.inputUrl.toList.map UrlEvent.revoke ++
         [UrlEvent.create s.nextHandle] ++
         (flushIds s.inputUrl s.outputUrl (some s.nextHandle) none).map
           UrlEvent.revoke) := rfl

theorem handleFile_none (s : AppState) :
    handleFile s none =
      ({ s with outputUrl := none, progress := 0, status := "",
                file := none, inputUrl := none,
                revoked := s.revoked ++ s.inputUrl.toList ++
                  flushIds s.inputUrl s.outputUrl none none },
       s.inputUrl.toList.map UrlEvent.revoke ++
         (flushIds s.inputUrl s.outputUrl none none).map UrlEvent.revoke) := rfl

theorem stateInv_step (s : AppState) (op : Op) (h : stateInv s) :
    stateInv (step s op) := by
  obtain ⟨hwf, hlive⟩ := h
  obtain ⟨hin, hout, hrevlt⟩ := wfHandles_facts s hwf
  cases op with
  | progressEvt r => exact ⟨hwf, hlive⟩
  | logEvt m => exact ⟨hwf, hlive⟩
  | engineReady => exact ⟨hwf, hlive⟩
  | chooseScale p => exact ⟨hwf, hlive⟩
  | chooseAlgo a => exact ⟨hwf, hlive⟩
  | chooseCrf n => exact ⟨hwf, hlive⟩
  | choosePreset p => exact ⟨hwf, hlive⟩
  | readDims d => exact ⟨hwf, hlive⟩
  | selectFile f =>
    cases f with
    | none =>
      show stateInv (handleFile s none).1
      rw [handleFile_none]
      constructor
      · unfold wfHandles
        simp only [Bool.and_eq_true]
        refine ⟨⟨by simp [Option.all], by simp [Option.all]⟩, ?_⟩
        rw [List.all_eq_true]
        intro y hy
        simp only [List.mem_append] at hy
        rcases hy with (hy | hy) | hy
        · simpa using hrevlt y hy
        · have hc : s.inputUrl = some y := by
            cases hc : s.inputUrl <;> simp_all
          simpa using hin y hc
        · rcases mem_flushIds _ _ _ _ _ hy with hc | hc
          · simpa using hin y hc
          · simpa using hout y hc
      · intro hh hl
        obtain ⟨hlt, hnm⟩ := hl
        simp only [List.mem_append] at hnm
        exfalso
        have hnot : hh ∉ s.revoked := fun hc => hnm (Or.inl (Or.inl hc))
        rcases hlive hh ⟨hlt, hnot⟩ with hc | hc
        · exact hnm (Or.inl (Or.inr (by simp [hc])))
        · apply hnm
          right
          unfold flushIds
          rw [if_neg (by simp [hc])]
          simp [List.mem_append, hc]
    | some g =>
      show stateInv (handleFile s (some g)).1
      rw [handleFile_some]
      constructor
      · unfold wfHandles
        simp only [Bool.and_eq_true]
        refine ⟨⟨by simp [Option.all], by simp [Option.all]⟩, ?_⟩
        rw [List.all_eq_true]
        intro y hy
        simp only [List.mem_append] at hy
        rcases hy with (hy | hy) | hy
        · simpa using Nat.lt_succ_of_lt (hrevlt y hy)
        · have hc : s.inputUrl = some y := by
            cases hc : s.inputUrl <;> simp_all
          simpa using Nat.lt_succ_of_lt (hin y hc)
        · rcases mem_flushIds _ _ _ _ _ hy with hc | hc
          · simpa using Nat.lt_succ_of_lt (hin y hc)
          · simpa using Nat.lt_succ_of_lt (hout y hc)
      · intro hh hl
        obtain ⟨hlt, hnm⟩ := hl
        simp only [List.mem_append] at hnm
        by_cases he : hh = s.nextHandle
        · left
          simp [he]
        · have hlt1 : hh < s.nextHandle + 1 := hlt
          have hlt' : hh < s.nextHandle := by omega
          have hnot : hh ∉ s.revoked := fun hc => hnm (Or.inl (Or.inl hc))
          exfalso
          rcases hlive hh ⟨hlt', hnot⟩ with hc | hc
          · exact hnm (Or.inl (Or.inr (by simp [hc])))
          · apply hnm
            right
            unfold flushIds
            rw [if_neg (by simp [hc])]
            simp [List.mem_append, hc]
  | startClick eng =>
    show stateInv (clickStart s eng).state
    by_cases hd : disabledFlag s = true
    · unfold clickStart
      rw [hd]
      exact ⟨hwf, hlive⟩
    · have hd' : disabledFlag s = false := by
        cases hb : disabledFlag s
        · rfl
        · exact absurd hb hd
      unfold clickStart
      rw [hd']
      simp only [Bool.false_eq_true, if_false]
      rcases hf : s.file with _ | f
      · rw [upscale_not_ready s eng (Or.inr hf)]
        exact ⟨hwf, hlive⟩
      · rcases hready : s.ffmpegReady with _ | _
        · rw [upscale_not_ready s eng (Or.inl hready)]
          exact ⟨hwf, hlive⟩
        · by_cases hsize : maxBytes < f.size
          · rw [upscale_size_guard s eng f hready hf hsize]
            exact ⟨hwf, hlive⟩
          · have hsz := Nat.not_lt.mp hsize
            rcases hw : eng.writeOk with _ | _
            · rw [upscale_write_fail s eng f hready hf hsz hw]
              exact ⟨hwf, hlive⟩
            · rcases hx : eng.execOk with _ | _
              · rw [upscale_exec_fail s eng f hready hf hsz hw hx]
                exact ⟨hwf, hlive⟩
              · rcases hr : eng.readOk with _ | _
                · rw [upscale_read_fail s eng f hready hf hsz hw hx hr]
                  exact ⟨hwf, hlive⟩
                · rw [upscale_success s eng f hready hf hsz hw hx hr]
                  constructor
                  · unfold wfHandles
                    simp only [Bool.and_eq_true]
                    refine ⟨⟨?_, by simp [Option.all]⟩, ?_⟩
                    · cases hc : s.inputUrl with
                      | none => simp [Option.all]
                      | some a =>
                        simp only [Option.all]
                        simpa using Nat.lt_succ_of_lt (hin a hc)
                    · rw [List.all_eq_true]
                      intro y hy
                      simp only [List.mem_append] at hy
                      rcases hy with hy | hy
                      · simpa using Nat.lt_succ_of_lt (hrevlt y hy)
                      · rcases mem_flushIds _ _ _ _ _ hy with hc | hc
                        · simpa using Nat.lt_succ_of_lt (hin y hc)
                        · simpa using Nat.lt_succ_of_lt (hout y hc)
                  · intro hh hl
                    obtain ⟨hlt, hnm⟩ := hl
                    simp only [List.mem_append] at hnm
                    by_cases he : hh = s.nextHandle
                    · right
                      simp [he]
                    · have hlt1 : hh < s.nextHandle + 1 := hlt
                      have hlt' : hh < s.nextHandle := by omega
                      have hnot : hh ∉ s.revoked := fun hc => hnm (Or.inl hc)
                      have hne : s.outputUrl ≠ some s.nextHandle := by
                        intro hcon
                        have := hout _ hcon
                        omega
                      exfalso
                      rcases hlive hh ⟨hlt', hnot⟩ with hc | hc
                      · apply hnm
                        right
                        unfold flushIds
                        rw [if_neg (by simp [hne])]
                        simp [List.mem_append, hc]
                      · apply hnm
                        right
                        unfold flushIds
                        rw [if_neg (by simp [hne])]
                        simp [List.mem_append, hc]

theorem stateInv_runApp (ops : List Op) : stateInv (runApp ops) := by
  have base : stateInv initState := by
    constructor
    · rfl
    · intro hh hl
      exact absurd hl.1 (Nat.not_lt_zero hh)
  have H : ∀ (l : List Op) (t : AppState), stateInv t → stateInv (l.foldl step t) := by
    intro l
    induction l with
    | nil => intro t ht; exact ht
    | cons op rest ih =>
      intro t ht
      exact ih _ (stateInv_step t op ht)
  exact H ops initState base

/-- C3 counterexample: from the reachable-shaped state `sReady`, whose
prior output handle 1 is live, a successful run issues
`[create 2, revoke 0, revoke 1]` — the new output handle is created
before the prior output handle is revoked, so creating a new handle does
not always release the prior one first (and between the two events both
output handles are simultaneously unrevoked). -/
theorem C3_counterexample :
    sReady.outputUrl = some 1 ∧
    (1 : Nat) ∉ sReady.revoked ∧
    (upscale sReady engOk).urlEvents =
      [UrlEvent.create 2, UrlEvent.revoke 0, UrlEvent.revoke 1] ∧
    UrlEvent.create 2 ∈ (upscale sReady engOk).urlEvents ∧
    UrlEvent.revoke 1 ∈ (upscale sReady engOk).urlEvents ∧
    revokeBeforeCreate 1 2 (upscale sReady engOk).urlEvents = false := by
  decide

/-- C3 amended: at every step boundary the handle invariant holds — every
live handle is the referenced input or output handle, so at most one of
each is live; selecting a new file revokes exactly the one previous input
handle (plus, in the deferred cleanup, the prior output handle) and the
revocation precedes the creation of the next input handle; but on a
successful run the prior output handle is released only after the new
output handle is created, in the deferred cleanup, not first. -/
theorem C3_amended_handle_lifecycle :
    (∀ ops : List Op, stateInv (runApp ops)) ∧
    (∀ (s : AppState) (f : FileInfo) (a : Nat), s.inputUrl = some a →
      ((handleFile s (some f)).2).take 2 =
        [UrlEvent.revoke a, UrlEvent.create s.nextHandle] ∧
      (∀ hdl, UrlEvent.revoke hdl ∈ (handleFile s (some f)).2 →
        hdl = a ∨ s.outputUrl = some hdl)) ∧
    (∀ (s : AppState) (eng : EngineBehavior) (f : FileInfo) (b : Nat),
      s.ffmpegReady = true → s.file = some f → f.size ≤ maxBytes →
      eng.writeOk = true → eng.execOk = true → eng.readOk = true →
      wfHandles s = true → s.outputUrl = some b →
      ((upscale s eng).urlEvents).head? =
        some (UrlEvent.create s.nextHandle) ∧
      UrlEvent.revoke b ∈ (upscale s eng).urlEvents ∧
      revokeBeforeCreate b s.nextHandle (upscale s eng).urlEvents = false) := by
  refine ⟨stateInv_runApp, ?_, ?_⟩
  · intro s f a ha
    rw [handleFile_some]
    constructor
    · simp [ha]
    · intro hdl hmem
      simp only [ha, List.mem_append, List.mem_map, List.mem_singleton] at hmem
      rcases hmem with (hmem | hmem) | hmem
      · left
        obtain ⟨x, hx, hxe⟩ := hmem
        simp only [Option.toList_some, List.mem_singleton] at hx
        have : x = hdl := by
          injection hxe
        omega
      · exact absurd hmem (by simp)
      · obtain ⟨x, hx, hxe⟩ := hmem
        have hxh : x = hdl := by
          injection hxe
        rcases mem_flushIds _ _ _ _ _ hx with hc | hc
        · left
          injection hc with hc'
          omega
        · right
          rw [hxh] at hc
          exact hc
  · intro s eng f b hready hfile hsize hw hx hr hwfs hb
    obtain ⟨hin, hout, hrevlt⟩ := wfHandles_facts s hwfs
    rw [upscale_success s eng f hready hfile hsize hw hx hr]
    have hne : s.outputUrl ≠ some s.nextHandle := by
      intro hcon
      have := hout _ hcon
      omega
    have hflmem : b ∈ flushIds s.inputUrl s.outputUrl s.inputUrl (some s.nextHandle) := by
      unfold flushIds
      rw [if_neg (by simp [hne])]
      simp [List.mem_append, hb]
    refine ⟨rfl, ?_, ?_⟩
    · simp only [List.mem_cons]
      right
      exact List.mem_map_of_mem UrlEvent.revoke hflmem
    · simp [revokeBeforeCreate]

/-- C3 witness: the amended facts at concrete inputs — the invariant at a
concrete event sequence, the revoke-then-create order for a concrete file
selection, and the deferred output release in a concrete successful run. -/
theorem C3_witness :
    stateInv (runApp [Op.engineReady, Op.selectFile (some fileSmall)]) ∧
    ((handleFile sReady (some fileSmall)).2).take 2 =
      [UrlEvent.revoke 0, UrlEvent.create sReady.nextHandle] ∧
    ((upscale sReady engOk).urlEvents).head? =
      some (UrlEvent.create sReady.nextHandle) ∧
    UrlEvent.revoke 1 ∈ (upscale sReady engOk).urlEvents ∧
    revokeBeforeCreate 1 sReady.nextHandle (upscale sReady engOk).urlEvents
      = false := by
  have H := C3_amended_handle_lifecycle
  have H3 := H.2.2 sReady engOk fileSmall 1 rfl rfl (by decide) rfl rfl rfl
    (by decide) rfl
  exact ⟨H.1 _, (H.2.1 sReady fileSmall 0 rfl).1, H3.1, H3.2.1, H3.2.2⟩

end VideoUpscaler
